import Mathlib

/-!
Verification of the patchy orchestration engine (nik-rev/patchy).

This file shallowly embeds the parts of the source that the claims are
about: the git primitives the code invokes (`src/git.rs` spawns `git`
with fixed argument lists; we model the repository state those commands
act on), the branch-name allocator, the fetch/merge pipeline, the
config-snapshot backup/restore, the patch-application loop and the final
branch-overwrite step of `src/commands/run.rs`, and the `Ref` parser of
`src/config.rs`.

Machine state is modelled explicitly: a `GitState` records the local
branches (name and commit id), the remote aliases, the checked-out
branch, and whether staged / unstaged changes or an in-progress `git am`
exist.  Fallible operations return `Except String` results paired with
the successor state, mirroring the fact that a failing git subprocess
still leaves its side effects behind.  Outcomes that depend on the
outside world (network fetches, merge conflicts, patch conflicts) are
supplied as explicit oracle parameters.
-/

namespace Patchy

/-! ## Decimal representation of naturals

The branch-name allocator of `src/git.rs` builds candidate names with
`format!("{current}-{branch}")`, i.e. the decimal representation of the
probe number.  To prove that the allocator terminates (finitely many
existing refs cannot exhaust infinitely many candidate names) we need
injectivity of `Nat.repr`, which we obtain from a decode function.
-/

/-- Specification of the decimal digit list of a natural number, most
significant digit first, mirroring what `Nat.toDigitsCore` computes. -/
def digitsOf (n : Nat) : List Char :=
  if h : n < 10 then [Nat.digitChar n]
  else digitsOf (n / 10) ++ [Nat.digitChar (n % 10)]
termination_by n
decreasing_by
  exact Nat.div_lt_self (by omega) (by omega)

/-- Numeric value of a decimal digit character. -/
def charVal (c : Char) : Nat := c.toNat - 48

/-- Decode a digit list, most significant digit first, with accumulator. -/
def decAux : List Char → Nat → Nat
  | [], a => a
  | c :: cs, a => decAux cs (a * 10 + charVal c)

/-! ## Repository state

`src/git.rs` runs `git` subcommands against a single worktree.  We model
the state those subcommands read and write.  Commits are identified by
natural numbers; `next_commit` is a counter from which `git commit` and
`git am` draw fresh commit ids.
-/

/-- State of the git repository that the spawned `git` commands act on. -/
structure GitState where
  /-- Local branches: name paired with the commit id it points at. -/
  branches : List (String × Nat)
  /-- Configured remote aliases (`git remote add` targets). -/
  remotes : List String
  /-- Name of the currently checked-out branch. -/
  head : String
  /-- Whether there are staged (cached) changes in the index. -/
  staged : Bool
  /-- Whether there are unstaged changes in the worktree. -/
  dirty : Bool
  /-- Whether a `git am` application is in progress. -/
  am_in_progress : Bool
  /-- Source of fresh commit ids. -/
  next_commit : Nat
  deriving Repr, DecidableEq

/-- Result type of a spawned git command: trimmed stdout on success, an
error message on failure (`get_git_output` in `src/git.rs`). -/
abbrev Res (α : Type) : Type := Except String α

/-- Whether an operation failed, mirroring Rust's `Result::is_err`. -/
def resIsErr {α : Type} : Res α → Bool
  | Except.ok _ => false
  | Except.error _ => true

/-- Lookup of a binding (a branch's commit id, a file's contents) by
name in an association list. -/
def lookupB {β : Type} : List (String × β) → String → Option β
  | [], _ => none
  | p :: rest, name => if p.1 = name then some p.2 else lookupB rest name

/-- Remove a binding by name. -/
def removeB {β : Type} (l : List (String × β)) (name : String) :
    List (String × β) :=
  l.filter (fun p => decide (p.1 ≠ name))

/-- Bind `name` to `value`, replacing any previous binding. -/
def setB {β : Type} (l : List (String × β)) (name : String) (value : β) :
    List (String × β) :=
  (name, value) :: removeB l name

/-- Whether a name resolves as an existing ref in the repository. -/
def refExists (st : GitState) (name : String) : Bool :=
  (lookupB st.branches name).isSome

/-! ### Primitive git commands

One definition per `git` argument list the source spawns.  Each returns
the command's `Res` outcome together with the successor state.  Outcomes
that depend on the outside world (the network, the actual textual
contents being merged) are oracle parameters.
-/

/-- Command `git rev-parse --verify <name>`: succeeds exactly when the
name resolves to an object; never changes the repository. -/
def rev_parse_verify (name : String) (st : GitState) : Res String × GitState :=
  (if refExists st name then Except.ok name else Except.error "fatal: Needed a single revision", st)

/-- Command `git rev-parse --abbrev-ref HEAD`: returns the name of the
current branch.  The oracle `ok` covers the failure case of a branch
with no commits. -/
def rev_parse_abbrev_head (ok : Bool) (st : GitState) : Res String × GitState :=
  (if ok then Except.ok st.head else Except.error "fatal: ambiguous argument", st)

/-- Command `git remote add <alias> <url>`: fails when the alias is
already taken. -/
def remote_add (al url : String) (st : GitState) : Res String × GitState :=
  if al ∈ st.remotes then (Except.error ("error: remote " ++ al ++ " already exists. url " ++ url), st)
  else (Except.ok "", { st with remotes := al :: st.remotes })

/-- Command `git remote remove <alias>`: fails when no such remote. -/
def remote_remove (al : String) (st : GitState) : Res String × GitState :=
  if al ∈ st.remotes then
    (Except.ok "", { st with remotes := st.remotes.filter (fun r => decide (r ≠ al)) })
  else (Except.error ("error: No such remote: " ++ al), st)

/-- Command `git fetch <url> <upstream>:<local>`: on success creates or
moves the local branch to the fetched commit.  `ok` is the network / ref
resolution oracle and `fetched` the commit the upstream points at. -/
def fetch_refspec (ok : Bool) (fetched : Nat) (url upstream localName : String)
    (st : GitState) : Res String × GitState :=
  if ok then (Except.ok "", { st with branches := setB st.branches localName fetched })
  else (Except.error ("fatal: couldn't find remote ref " ++ upstream ++ " at " ++ url), st)

/-- Command `git branch --force <name> <commit>`: moves the branch to the
given commit; `commit_ok` says whether the commit hash resolves. -/
def branch_force (commit_ok : Bool) (name : String) (commit : Nat)
    (st : GitState) : Res String × GitState :=
  if commit_ok then (Except.ok "", { st with branches := setB st.branches name commit })
  else (Except.error "fatal: not a valid object name", st)

/-- Command `git branch --delete --force <name>`: fails for a missing
branch or when deleting the checked-out branch. -/
def branch_delete_force (name : String) (st : GitState) : Res String × GitState :=
  if (lookupB st.branches name).isSome ∧ name ≠ st.head then
    (Except.ok "", { st with branches := removeB st.branches name })
  else (Except.error ("error: cannot delete branch " ++ name), st)

/-- Command `git checkout <name>`: makes `name` the current branch.  The
oracle `ok` covers failures (missing branch, conflicting local
changes), which leave the state untouched. -/
def checkout (ok : Bool) (name : String) (st : GitState) : Res String × GitState :=
  if ok then (Except.ok "", { st with head := name })
  else (Except.error ("error: pathspec " ++ name ++ " did not match"), st)

/-- Command `git merge --squash <name>`: `conflict` is the oracle for a
non-trivial merge, which leaves conflict markers (a dirty worktree and
index) behind; on success the index holds the squashed changes, which
are empty when the branch brings nothing new (`stages` oracle). -/
def merge_squash (conflict stages : Bool) (errText : String) (name : String)
    (st : GitState) : Res String × GitState :=
  if conflict then
    (Except.error (errText ++ " merging " ++ name), { st with staged := true, dirty := true })
  else (Except.ok "", { st with staged := stages })

/-- Command `git reset --hard`: discards staged and unstaged changes. -/
def reset_hard (st : GitState) : Res String × GitState :=
  (Except.ok "", { st with staged := false, dirty := false })

/-- Command `git commit --message <msg>`: commits the staged changes to
the current branch; fails when nothing is staged. -/
def commit_cmd (msg : String) (st : GitState) : Res String × GitState :=
  if st.staged then
    (Except.ok msg,
      { st with
        branches := setB st.branches st.head st.next_commit
        staged := false
        next_commit := st.next_commit + 1 })
  else (Except.error "nothing to commit, working tree clean", st)

/-- Command `git diff --cached --quiet`: exits non-zero exactly when
there are staged changes. -/
def diff_cached_quiet (st : GitState) : Res String × GitState :=
  (if st.staged then Except.error "" else Except.ok "", st)

/-- Command `git switch --create <name>`: creates a branch at the
current commit and switches to it; fails when the name is taken. -/
def switch_create (name : String) (st : GitState) : Res String × GitState :=
  if (lookupB st.branches name).isSome then
    (Except.error ("fatal: a branch named " ++ name ++ " already exists"), st)
  else
    (Except.ok "",
      { st with
        branches := setB st.branches name ((lookupB st.branches st.head).getD 0)
        head := name })

/-- Command `git branch --move --force <old> <new>`: renames `old` to
`new`, silently discarding any previous `new`; HEAD follows the rename
when it sat on `old`. -/
def branch_move_force (old new : String) (st : GitState) : Res String × GitState :=
  match lookupB st.branches old with
  | some c =>
    (Except.ok "",
      { st with
        branches := setB (removeB st.branches old) new c
        head := if st.head = old then new else st.head })
  | none => (Except.error ("error: refname " ++ old ++ " not found"), st)

/-- Command `git am --keep-cr --signoff <path>`: applies the patch as a
commit on the current branch; on conflict (`ok` oracle false) the apply
stays in progress until aborted. -/
def git_am (ok : Bool) (path : String) (st : GitState) : Res String × GitState :=
  if ok then
    (Except.ok "",
      { st with
        branches := setB st.branches st.head st.next_commit
        next_commit := st.next_commit + 1 })
  else
    (Except.error ("error: could not apply " ++ path), { st with am_in_progress := true })

/-- Command `git am --abort`: abandons the in-progress apply. -/
def git_am_abort (st : GitState) : Res String × GitState :=
  (Except.ok "", { st with am_in_progress := false })

/-- Command `git add <path>` (used on the config directory). -/
def git_add (path : String) (st : GitState) : Res String × GitState :=
  (Except.ok path, { st with staged := true })

/-- Command `git log -1 --format=%B`: reads the last commit message;
read-only.  The message text is an oracle. -/
def git_log_last (msg : String) (st : GitState) : Res String × GitState :=
  (Except.ok msg, st)

/-! ## Data model (`src/github_api.rs`, `src/utils.rs`)

The `RemoteBranch` binding of an ephemeral remote to an ephemeral local
branch, and the name-generation helpers.
-/

/-- Structure `Branch` of `src/github_api.rs`. -/
structure ApiBranch where
  /-- Name of the branch as it is on the remote. -/
  upstream_branch_name : String
  /-- Name of the branch when cloned locally. -/
  local_branch_name : String
  deriving Repr, DecidableEq

/-- Structure `Remote` of `src/github_api.rs`. -/
structure ApiRemote where
  /-- Link to the remote repository. -/
  repository_url : String
  /-- Name of the remote as it exists locally. -/
  local_remote_alias : String
  deriving Repr, DecidableEq

/-- Structure `RemoteBranch` of `src/github_api.rs`: the ephemeral
remote/branch pair a fetch creates. -/
structure RemoteBranch where
  /-- Remote part. -/
  remote : ApiRemote
  /-- Branch part. -/
  branch : ApiBranch
  deriving Repr, DecidableEq

/-- Function `with_uuid` of `src/utils.rs`: prepends a random short
suffix, `format!("{uuid}-{s}")`.  The sampled alphanumeric string is an
input here. -/
def with_uuid (uuid s : String) : String := uuid ++ "-" ++ s

/-- Function `normalize_commit_msg` of `src/utils.rs`. -/
def normalize_commit_msg (commit_msg : String) : String :=
  (commit_msg.data.map (fun c =>
    if c.isAlphanum then c.toLower
    else if c.isWhitespace then '_'
    else '-')).asString

/-! ## Fetching (`src/git.rs`) -/

/-- Oracle outcomes for the git steps of one `add_remote_branch` call:
whether the `git fetch` finds the upstream ref, which commit it fetches,
and whether an optional pinned commit hash resolves (and to what). -/
structure FetchOracle where
  /-- Whether `git fetch <url> <upstream>:<local>` succeeds. -/
  fetch_ok : Bool
  /-- Commit id the upstream branch points at. -/
  fetched_commit : Nat
  /-- Whether the pinned commit hash resolves to an object. -/
  pin_ok : Bool
  /-- Commit id the pinned hash resolves to. -/
  pin_commit : Nat
  deriving Repr, DecidableEq

/-- Function `add_remote_branch` of `src/git.rs` (lines 75-133): adds the
ephemeral remote, fetches `upstream:local`, and optionally force-moves
the local branch to a pinned commit. -/
def add_remote_branch (o : FetchOracle) (remote_branch : RemoteBranch)
    (commit : Option String) (st : GitState) : Res Unit × GitState :=
  match remote_add remote_branch.remote.local_remote_alias
      remote_branch.remote.repository_url st with
  | (Except.error err, st1) =>
    match remote_remove remote_branch.remote.local_remote_alias st1 with
    | (Except.error e2, st2) => (Except.error e2, st2)
    | (Except.ok _, st2) => (Except.error ("Failed to fetch remote: " ++ err), st2)
  | (Except.ok _, st1) =>
    match fetch_refspec o.fetch_ok o.fetched_commit
        remote_branch.remote.repository_url
        remote_branch.branch.upstream_branch_name
        remote_branch.branch.local_branch_name st1 with
    | (Except.error err, st2) =>
      (Except.error ("Failed to find branch "
        ++ remote_branch.branch.upstream_branch_name
        ++ " of GitHub repository " ++ remote_branch.remote.repository_url
        ++ ". Are you sure it exists?\n" ++ err), st2)
    | (Except.ok _, st2) =>
      match commit with
      | none => (Except.ok (), st2)
      | some c =>
        match branch_force o.pin_ok remote_branch.branch.local_branch_name
            o.pin_commit st2 with
        | (Except.error err, st3) =>
          (Except.error ("Failed to find commit " ++ c ++ " of branch "
            ++ remote_branch.branch.local_branch_name
            ++ ". Are you sure it exists?\n" ++ err), st3)
        | (Except.ok _, st3) => (Except.ok (), st3)

/-- Function `delete_remote_and_branch` of `src/git.rs` (lines 139-143):
force-deletes the branch, then removes the remote. -/
def delete_remote_and_branch (remote : String) (branch : String)
    (st : GitState) : Res Unit × GitState :=
  match branch_delete_force branch st with
  | (Except.error e, st1) => (Except.error e, st1)
  | (Except.ok _, st1) =>
    match remote_remove remote st1 with
    | (Except.error e, st2) => (Except.error e, st2)
    | (Except.ok _, st2) => (Except.ok (), st2)

/-- Function `checkout_from_remote` of `src/git.rs` (lines 146-165):
records the current branch, then checks out the fetched branch; on
either failure it deletes the ephemeral remote and branch first. -/
def checkout_from_remote (head_ok checkout_ok : Bool) (branch remote : String)
    (st : GitState) : Res String × GitState :=
  match rev_parse_abbrev_head head_ok st with
  | (Except.error err, st1) =>
    match delete_remote_and_branch remote branch st1 with
    | (Except.error e2, st2) => (Except.error e2, st2)
    | (Except.ok _, st2) =>
      (Except.error ("Couldn't get the current branch. This usually happens when the current branch does not have any commits.\n" ++ err), st2)
  | (Except.ok current_branch, st1) =>
    match checkout checkout_ok branch st1 with
    | (Except.error err, st2) =>
      match delete_remote_and_branch remote branch st2 with
      | (Except.error e2, st3) => (Except.error e2, st3)
      | (Except.ok _, st3) =>
        (Except.error ("Failed to checkout branch: " ++ branch
          ++ ", which belongs to remote " ++ remote ++ "\n" ++ err), st3)
    | (Except.ok _, st2) => (Except.ok current_branch, st2)

/-! ## Merging (`src/git.rs`) -/

/-- Function `merge_into_main` of `src/git.rs` (lines 168-188): squash
merge, hard reset on conflict, then an unconditional manual commit. -/
def merge_into_main (conflict stages : Bool) (errText : String)
    (local_branch remote_branch : String) (st : GitState) :
    Res String × GitState :=
  match merge_squash conflict stages errText local_branch st with
  | (Except.error err, st1) =>
    match reset_hard st1 with
    | (_, st2) => (Except.error ("Could not merge " ++ remote_branch ++ "\n" ++ err), st2)
  | (Except.ok _, st1) =>
    match commit_cmd ("patchy: Merge " ++ local_branch) st1 with
    | (Except.error e, st2) => (Except.error e, st2)
    | (Except.ok _, st2) => (Except.ok ("Merged " ++ remote_branch ++ " successfully"), st2)

/-- Function `merge_pull_request` of `src/git.rs` (lines 191-248): merge,
then a commit guarded by `git diff --cached --quiet`, then deletion of
the ephemeral remote and branch. -/
def merge_pull_request (conflict stages : Bool) (errText : String)
    (info : RemoteBranch) (pull_request pr_title pr_url : String)
    (st : GitState) : Res Unit × GitState :=
  match merge_into_main conflict stages errText
      info.branch.local_branch_name info.branch.upstream_branch_name st with
  | (Except.error err, st1) =>
    (Except.error ("Could not merge branch " ++ info.branch.local_branch_name
      ++ " into the current branch for pull request #" ++ pull_request ++ " "
      ++ pr_title
      ++ " since the merge is non-trivial. Skipping this PR. Error message from git:\n"
      ++ err), st1)
  | (Except.ok _, st1) =>
    let has_unstaged_changes := resIsErr (diff_cached_quiet st1).1
    match (if has_unstaged_changes then
        commit_cmd ("patchy: auto-merge pull request "
          ++ pr_url.replace "github.com" "redirect.github.com") st1
      else (Except.ok "", st1)) with
    | (Except.error e, st2) => (Except.error e, st2)
    | (Except.ok _, st2) =>
      match delete_remote_and_branch info.remote.local_remote_alias
          info.branch.local_branch_name st2 with
      | (Except.error e, st3) => (Except.error e, st3)
      | (Except.ok _, st3) => (Except.ok (), st3)

/-! ## Branch name allocation (`src/git.rs`, lines 250-301) -/

/-- Enum `AvailableBranch` of `src/git.rs`. -/
inductive AvailableBranch where
  /-- The original branch that was passed in can be used. -/
  | First : AvailableBranch
  /-- A numbered branch such as some-branch-2, some-branch-3. -/
  | Other : String → AvailableBranch
  deriving Repr, DecidableEq

/-- Candidate name `format!("{current}-{branch}")`. -/
def numbered (current : Nat) (branch : String) : String :=
  Nat.repr current ++ "-" ++ branch

/-- Probe loop of `find_first_available_branch`: the source iterates
`(2..).find(|current| git(["rev-parse", "--verify", branch_with_num]).is_err())`.
The iteration is unbounded in the source; here it carries fuel, and
`probe_isSome` below shows the fuel the callers pass always suffices. -/
def probe (st : GitState) (branch : String) : Nat → Nat → Option Nat
  | 0, _ => none
  | fuel + 1, current =>
    if resIsErr (rev_parse_verify (numbered current branch) st).1 then some current
    else probe st branch fuel (current + 1)

/-- Function `find_first_available_branch` of `src/git.rs` (lines
278-301).  The source's local variable `branch_exists` is misnamed: it
is true when `git rev-parse --verify` FAILS, i.e. when the branch does
not exist, in which case the desired name is used unchanged.  The
`none` fallback mirrors the source's `.expect` panic and is unreachable
(`probe_isSome`). -/
def find_first_available_branch (st : GitState) (branch : String) :
    AvailableBranch :=
  let branch_exists := resIsErr (rev_parse_verify branch st).1
  if branch_exists then AvailableBranch.First
  else
    match probe st branch (st.branches.length + 1) 2 with
    | some number => AvailableBranch.Other (numbered number branch)
    | none => AvailableBranch.Other (numbered 0 branch)

/-- The match both callers in `src/git.rs` perform on the result of
`find_first_available_branch` to obtain the name to use. -/
def availableBranchName (st : GitState) (branch : String) : String :=
  match find_first_available_branch st branch with
  | AvailableBranch.First => branch
  | AvailableBranch.Other b => b

/-- Struct `Remote` of `src/config.rs`: an owner/repo/branch triple with
an optional pinned commit hash. -/
structure ConfigRemote where
  /-- Repository owner, e.g. helix-editor. -/
  owner : String
  /-- Repository name, e.g. helix. -/
  repo : String
  /-- Branch name, e.g. master. -/
  branch : String
  /-- Optional pinned commit hash. -/
  commit : Option String
  deriving Repr, DecidableEq

/-- Function `fetch_branch` of `src/git.rs` (lines 304-342): resolves the
repository's clone url (network oracle `response`), builds the
`RemoteBranch` binding, and calls `add_remote_branch`.  The local branch
name is `remote.branch.clone()` — taken verbatim from the config, not
routed through `find_first_available_branch`. -/
def fetch_branch (response : Option String) (o : FetchOracle) (uuid : String)
    (remote : ConfigRemote) (st : GitState) :
    Res (String × RemoteBranch) × GitState :=
  match response with
  | none =>
    (Except.error ("Could not fetch branch: " ++ remote.owner ++ "/" ++ remote.repo), st)
  | some clone_url =>
    let info : RemoteBranch :=
      { remote :=
          { repository_url := clone_url
            local_remote_alias := with_uuid uuid (remote.owner ++ "/" ++ remote.repo) }
        branch :=
          { local_branch_name := remote.branch
            upstream_branch_name := remote.branch } }
    match add_remote_branch o info remote.commit st with
    | (Except.error err, st1) =>
      (Except.error ("Could not add remote branch " ++ remote.owner ++ "/"
        ++ remote.repo ++ ", skipping.\n" ++ err), st1)
    | (Except.ok _, st1) => (Except.ok (clone_url, info), st1)

/-- Data of GitHub's pull-request endpoint used by `fetch_pull_request`:
`head.repo.clone_url`, `head.ref`, `title`, `html_url`. -/
structure PrData where
  /-- Clone url of the head repository. -/
  clone_url : String
  /-- Name of the branch of the PR. -/
  head_ref : String
  /-- Title of the pull request. -/
  title : String
  /-- Url to the pull request. -/
  html_url : String
  deriving Repr, DecidableEq

/-- Function `fetch_pull_request` of `src/git.rs` (lines 346-393):
resolves the PR head (network oracle `response`), picks the local branch
name — the caller-supplied custom name verbatim if there is one,
otherwise `"{pull_request}/{head_ref}"` routed through
`find_first_available_branch` — and calls `add_remote_branch`. -/
def fetch_pull_request (response : Option PrData) (o : FetchOracle)
    (uuid : String) (pull_request : String)
    (custom_branch_name : Option String) (commit_hash : Option String)
    (st : GitState) : Res (PrData × RemoteBranch) × GitState :=
  match response with
  | none => (Except.error ("failed to fetch pull request #" ++ pull_request), st)
  | some r =>
    let remote_branch : RemoteBranch :=
      { remote :=
          { repository_url := r.clone_url
            local_remote_alias :=
              with_uuid uuid (normalize_commit_msg r.html_url ++ "-" ++ pull_request) }
        branch :=
          { upstream_branch_name := r.head_ref
            local_branch_name :=
              match custom_branch_name with
              | some custom => custom
              | none => availableBranchName st (pull_request ++ "/" ++ r.head_ref) } }
    match add_remote_branch o remote_branch commit_hash st with
    | (Except.error err, st1) =>
      (Except.error ("failed to add remote branch for pull request #"
        ++ pull_request ++ ", skipping.\n" ++ err), st1)
    | (Except.ok _, st1) => (Except.ok (r, remote_branch), st1)

/-! ## Parsing (`src/config.rs`, `src/commands/run.rs`, `src/commands/pr_fetch.rs`)

Rust's `str::split(sep)` splits on every non-overlapping occurrence of
the separator, left to right, and always yields at least one part.  We
implement that behaviour directly over the character list, with fuel
bounded by the input length; `splitLoop_fuel` below shows any fuel
beyond the input length computes the same answer, so the bound is never
hit for a non-empty separator. -/

/-- First occurrence of `sep` in `s`: the part before it and the part
after it. -/
def findSplit (sep : List Char) : List Char → Option (List Char × List Char)
  | [] => none
  | c :: rest =>
    if sep.isPrefixOf (c :: rest) then some ([], (c :: rest).drop sep.length)
    else
      match findSplit sep rest with
      | some (pre, post) => some (c :: pre, post)
      | none => none

/-- Fueled splitting loop. -/
def splitLoop (sep : List Char) : Nat → List Char → List (List Char)
  | 0, s => [s]
  | fuel + 1, s =>
    match findSplit sep s with
    | none => [s]
    | some (pre, post) => pre :: splitLoop sep fuel post

/-- Rust's `s.split(sep)` for a non-empty separator, collected to a
vector of owned strings. -/
def rust_split (s sep : String) : List String :=
  (splitLoop sep.data (s.data.length + 1) s.data).map List.asString

/-- Function `is_valid_commit_hash` of `src/config.rs` (and the
identical one in `src/commit.rs`): every character is an ASCII hex
digit (`char::is_ascii_hexdigit` accepts 0-9, a-f and A-F). -/
def is_valid_commit_hash (hash : String) : Bool :=
  hash.data.all (fun ch =>
    ch.isDigit || ('a' ≤ ch && ch ≤ 'f') || ('A' ≤ ch && ch ≤ 'F'))

/-- The `nutype` smart constructor of `CommitId` (`src/config.rs`) and
`Commit` (`src/commit.rs`): validated as non-empty hex; `parse().ok()`
turns a failed validation into `none`. -/
def commit_id_try_new (s : String) : Option String :=
  if s ≠ "" ∧ is_valid_commit_hash s = true then some s else none

/-- Struct `Ref` of `src/config.rs`: a git item with an optional commit
to check out. -/
structure Ref where
  /-- Git item, e.g. a branch or a remote. -/
  item : String
  /-- Commit to checkout of the item; `none` means the latest commit. -/
  commit : Option String
  deriving Repr, DecidableEq

/-- Body of `Ref::from_str` of `src/config.rs` (lines 177-211): split on
`" @ "`; a single part means no pin; otherwise the item is the
concatenation of all parts but the last (`parts.get(0..len-1)` collected
to a `String`) and the pin is the last part parsed as a `CommitId`, with
a failed parse silently dropped by `.ok()`.  The `.getD ""` mirrors the
source's `.expect`, unreachable because a split is never empty. -/
def parse_ref (s : String) : Ref :=
  let parts := rust_split s " @ "
  let len := parts.length
  if len = 1 then { item := s, commit := none }
  else
    { item := String.join (parts.take (len - 1))
      commit := commit_id_try_new (parts.getLast?.getD "") }

/-- Function `Ref::from_str` of `src/config.rs`: the error type is
`Infallible` (here `Empty`), and the body always ends in `.pipe(Ok)`. -/
def ref_from_str (s : String) : Except Empty Ref :=
  Except.ok (parse_ref s)

/-- Function `parse_if_maybe_hash` of `src/commands/run.rs` (lines
19-34): the same split, parameterised over the separator, with the last
part parsed as a `Commit` (`src/commit.rs`, same validation). -/
def parse_if_maybe_hash (input sep : String) : String × Option String :=
  let parts := rust_split input sep
  let len := parts.length
  if len = 1 then (input, none)
  else (String.join (parts.take (len - 1)),
    commit_id_try_new (parts.getLast?.getD ""))

/-- Function `ignore_octothorpe` of `src/commands/pr_fetch.rs`: strips
one leading `#`. -/
def ignore_octothorpe (arg : String) : String :=
  if List.isPrefixOf ['#'] arg.data then (arg.data.drop 1).asString else arg

/-! ## Config snapshot (`src/config.rs`, `backup` module, lines 319-384)

The config directory is a finite map from file name to file contents;
`read_to_string` succeeds according to the `read_ok` oracle (it fails,
for instance, on non-UTF-8 contents) and `File::create` plus `write!`
succeed according to the `write_ok` oracle. -/

/-- Primitive `fs::read_to_string`: read-only. -/
def fs_read (read_ok : String → Bool) (fs : List (String × String))
    (name : String) : Res String × List (String × String) :=
  (if read_ok name then
      match lookupB fs name with
      | some contents => Except.ok contents
      | none => Except.error "No such file or directory"
    else Except.error "stream did not contain valid UTF-8", fs)

/-- Primitive `File::create` followed by `write!`. -/
def fs_write (write_ok : String → Bool) (fs : List (String × String))
    (name contents : String) : Res Unit × List (String × String) :=
  if write_ok name then (Except.ok (), setB fs name contents)
  else (Except.error "Permission denied", fs)

/-- One backed-up file (`FileBackup` in `src/config.rs`). -/
structure FileBackup where
  /-- Name of the file in the config directory. -/
  filename : String
  /-- Contents of the backed up file. -/
  contents : String
  deriving Repr, DecidableEq

/-- Function `backup` of `src/config.rs` (lines 355-383): read every
directory entry fully into memory; a failed read aborts the whole
backup.  `names` is the `read_dir` listing of the directory. -/
def backup (read_ok : String → Bool) (names : List String)
    (fs : List (String × String)) :
    Res (List FileBackup) × List (String × String) :=
  match names with
  | [] => (Except.ok [], fs)
  | name :: rest =>
    match fs_read read_ok fs name with
    | (Except.error e, fs1) =>
      (Except.error ("failed to backup patchy config file " ++ name
        ++ " for configuration files:\n" ++ e), fs1)
    | (Except.ok contents, fs1) =>
      match backup read_ok rest fs1 with
      | (Except.error e, fs2) => (Except.error e, fs2)
      | (Except.ok backups, fs2) =>
        (Except.ok ({ filename := name, contents := contents } :: backups), fs2)

/-- Function `restore` of `src/config.rs` (lines 342-352): write each
backup back into the config directory; the first failed write aborts
the whole restore with an error. -/
def restore (write_ok : String → Bool) (files : List FileBackup)
    (fs : List (String × String)) : Res Unit × List (String × String) :=
  match files with
  | [] => (Except.ok (), fs)
  | fb :: rest =>
    match fs_write write_ok fs fb.filename fb.contents with
    | (Except.error e, fs1) => (Except.error ("failed to restore backup: " ++ e), fs1)
    | (Except.ok _, fs1) => restore write_ok rest fs1

/-! ## The run orchestrator (`src/commands/run.rs`) -/

/-- Per-item inputs and oracle outcomes for one entry of
`config.pull_requests` processed by the loop at lines 150-193. -/
structure PrRunItem where
  /-- The raw config entry, e.g. `"#123 @ abc123"`. -/
  raw : String
  /-- GitHub response for the PR endpoint (`none`: network/parse error). -/
  response : Option PrData
  /-- Git oracle outcomes for the fetch. -/
  oracle : FetchOracle
  /-- Random suffix sampled by `with_uuid` for the remote alias. -/
  uuid : String
  /-- Whether the squash merge reports a non-trivial conflict. -/
  conflict : Bool
  /-- Whether the squash merge stages any changes. -/
  stages : Bool
  /-- Git's error text for a conflicting merge. -/
  err_text : String
  deriving Repr, DecidableEq

/-- The pull-request loop of `run` (`src/commands/run.rs` lines
150-193): each entry is stripped of `#`, split from its optional pin,
fetched and merged; an `Err` from either step is logged with `fail!`
and the loop continues with the next entry.  Returns the final state
and, per entry, the parsed PR identifier with whether it merged. -/
def process_pull_requests (items : List PrRunItem) (st : GitState) :
    GitState × List (String × Bool) :=
  match items with
  | [] => (st, [])
  | it :: rest =>
    let pr0 := ignore_octothorpe it.raw
    let parsed := parse_if_maybe_hash pr0 " @ "
    match fetch_pull_request it.response it.oracle it.uuid parsed.1 none
        parsed.2 st with
    | (Except.error _, st1) =>
      match process_pull_requests rest st1 with
      | (st2, results) => (st2, (parsed.1, false) :: results)
    | (Except.ok (r, info), st1) =>
      match merge_pull_request it.conflict it.stages it.err_text info
          parsed.1 r.title r.html_url st1 with
      | (Except.error _, st2) =>
        match process_pull_requests rest st2 with
        | (st3, results) => (st3, (parsed.1, false) :: results)
      | (Except.ok _, st2) =>
        match process_pull_requests rest st2 with
        | (st3, results) => (st3, (parsed.1, true) :: results)

/-- Per-patch inputs for one entry of `config.patches` processed by the
loop at lines 287-311 of `src/commands/run.rs`. -/
structure PatchItem where
  /-- Patch name from the config. -/
  name : String
  /-- Whether `{config_dir}/{name}.patch` exists. -/
  file_found : Bool
  /-- Whether `git am` applies the patch without conflict. -/
  am_ok : Bool
  deriving Repr, DecidableEq

/-- The patch loop of `run` (`src/commands/run.rs` lines 287-311): a
missing patch file is logged and skipped; an application conflict runs
`git am --abort` and returns the error immediately, so no later patch is
attempted.  Returns the outcome, the final state, the list of patches
applied and the list of patches whose application was attempted. -/
def apply_patches (items : List PatchItem) (st : GitState) :
    Res Unit × GitState × List String × List String :=
  match items with
  | [] => (Except.ok (), st, [], [])
  | p :: rest =>
    if p.file_found = false then apply_patches rest st
    else
      match git_am p.am_ok (p.name ++ ".patch") st with
      | (Except.error err, st1) =>
        match git_am_abort st1 with
        | (_, st2) =>
          (Except.error ("Could not apply patch " ++ p.name ++ ", skipping\n" ++ err),
            st2, [], [p.name])
      | (Except.ok _, st1) =>
        match apply_patches rest st1 with
        | (res, st2, applied, attempted) =>
          (res, st2, p.name :: applied, p.name :: attempted)

/-- The final Overwriting step of `run` (`src/commands/run.rs` lines
320-365): create a uniquely named temporary branch, delete the
ephemeral base remote and branch, then either force-rename the
temporary branch onto `config.local_branch` (when `--yes` was passed or
the user confirms) or print the manual rename command and return
success.  The third component collects the printed notes. -/
def run_overwrite (uuid : String) (yes confirmed : Bool)
    (local_branch : String) (info : RemoteBranch) (st : GitState) :
    Res Unit × GitState × List String :=
  let temporary_branch := with_uuid uuid "temp-branch"
  match switch_create temporary_branch st with
  | (Except.error e, st1) => (Except.error e, st1, [])
  | (Except.ok _, st1) =>
    match delete_remote_and_branch info.remote.local_remote_alias
        info.branch.local_branch_name st1 with
    | (Except.error e, st2) => (Except.error e, st2, [])
    | (Except.ok _, st2) =>
      if yes || confirmed then
        match branch_move_force temporary_branch local_branch st2 with
        | (Except.error e, st3) => (Except.error e, st3, [])
        | (Except.ok _, st3) =>
          (Except.ok (), st3,
            (if yes then
              ["Automatically overwrote branch " ++ local_branch
                ++ " since you supplied the --yes flag"]
            else []) ++ ["Success!"])
      else
        (Except.ok (), st2,
          ["You can still manually overwrite " ++ local_branch ++ " with:\n  "
            ++ "git branch --move --force " ++ temporary_branch ++ " "
            ++ local_branch ++ "\n"])

/-- The working-branch fetch stage of `run` (`src/commands/run.rs` lines
126-131): `add_remote_branch(&info, commit_hash)?` followed by
`checkout_from_remote(...)?` — an error from either aborts the run. -/
def run_fetch_stage (o : FetchOracle) (commit_hash : Option String)
    (head_ok checkout_ok : Bool) (info : RemoteBranch) (st : GitState) :
    Res String × GitState :=
  match add_remote_branch o info commit_hash st with
  | (Except.error e, st1) => (Except.error e, st1)
  | (Except.ok _, st1) =>
    checkout_from_remote head_ok checkout_ok info.branch.local_branch_name
      info.remote.local_remote_alias st1

/-! ## Supporting lemmas -/

theorem decAux_append (xs ys : List Char) (a : Nat) :
    decAux (xs ++ ys) a = decAux ys (decAux xs a) := by
  induction xs generalizing a with
  | nil => rfl
  | cons c cs ih => simp [decAux, ih]

theorem charVal_digitChar (d : Nat) (h : d < 10) :
    charVal (Nat.digitChar d) = d := by
  interval_cases d <;> rfl

theorem digitsOf_lt (n : Nat) (h : n < 10) : digitsOf n = [Nat.digitChar n] := by
  rw [digitsOf]
  simp [h]

theorem digitsOf_ge (n : Nat) (h : ¬ n < 10) :
    digitsOf n = digitsOf (n / 10) ++ [Nat.digitChar (n % 10)] := by
  rw [digitsOf]
  simp [h]

theorem decAux_digitsOf (n : Nat) :
    ∀ a : Nat, decAux (digitsOf n) a = a * 10 ^ (digitsOf n).length + n := by
  induction n using Nat.strong_induction_on with
  | _ n ih =>
    intro a
    by_cases h : n < 10
    · simp [digitsOf_lt n h, decAux, charVal_digitChar n h]
    · have hd : n / 10 < n := Nat.div_lt_self (by omega) (by omega)
      rw [digitsOf_ge n h, decAux_append, ih (n / 10) hd a]
      simp only [List.length_append, List.length_cons, List.length_nil, Nat.zero_add]
      have hval : charVal (Nat.digitChar (n % 10)) = n % 10 :=
        charVal_digitChar (n % 10) (Nat.mod_lt n (by omega))
      have hdm : n / 10 * 10 + n % 10 = n := by omega
      calc decAux [Nat.digitChar (n % 10)] (a * 10 ^ (digitsOf (n / 10)).length + n / 10)
          = (a * 10 ^ (digitsOf (n / 10)).length + n / 10) * 10 + n % 10 := by
            simp [decAux, hval]
        _ = a * (10 ^ (digitsOf (n / 10)).length * 10) + (n / 10 * 10 + n % 10) := by
            ring
        _ = a * 10 ^ ((digitsOf (n / 10)).length + 1) + n := by
            rw [hdm, pow_succ]

theorem digitsOf_injective : Function.Injective digitsOf := by
  intro m n h
  have hm := decAux_digitsOf m 0
  have hn := decAux_digitsOf n 0
  rw [h] at hm
  omega

/-- With enough fuel, `Nat.toDigitsCore` computes `digitsOf`. -/
theorem toDigitsCore_eq (f : Nat) :
    ∀ n l, n < f → Nat.toDigitsCore 10 f n l = digitsOf n ++ l := by
  induction f with
  | zero => intro n l h; omega
  | succ f ih =>
    intro n l h
    by_cases h10 : n < 10
    · have hz : n / 10 = 0 := Nat.div_eq_of_lt h10
      have hm : n % 10 = n := Nat.mod_eq_of_lt h10
      simp [Nat.toDigitsCore, hz, hm, digitsOf, h10]
    · have hz : ¬ n / 10 = 0 := by
        intro hc
        exact h10 (by omega : n < 10)
      have hlt : n / 10 < f := by
        have := Nat.div_lt_self (show 0 < n by omega) (show 1 < 10 by omega)
        omega
      rw [Nat.toDigitsCore]
      simp only [hz, if_false]
      rw [ih (n / 10) (Nat.digitChar (n % 10) :: l) hlt]
      conv_rhs => rw [digitsOf]
      simp [h10]

theorem repr_eq_digitsOf (n : Nat) : Nat.repr n = (digitsOf n).asString := by
  unfold Nat.repr Nat.toDigits
  rw [toDigitsCore_eq (n + 1) n [] (by omega)]
  simp

theorem nat_repr_injective : Function.Injective Nat.repr := by
  intro m n h
  rw [repr_eq_digitsOf, repr_eq_digitsOf] at h
  have hd : digitsOf m = digitsOf n := by
    have := congrArg String.data h
    simpa [List.asString] using this
  exact digitsOf_injective hd

theorem lookupB_removeB_self {β : Type} (l : List (String × β)) (name : String) :
    lookupB (removeB l name) name = none := by
  induction l with
  | nil => simp [removeB, lookupB]
  | cons p rest ih =>
    by_cases hp : p.1 = name
    · simpa [removeB, List.filter_cons, hp] using ih
    · simpa [removeB, List.filter_cons, hp, lookupB] using ih

theorem lookupB_removeB_ne {β : Type} (l : List (String × β)) (name m : String)
    (h : name ≠ m) : lookupB (removeB l name) m = lookupB l m := by
  induction l with
  | nil => simp [removeB]
  | cons p rest ih =>
    simp only [removeB, List.filter_cons] at ih ⊢
    by_cases hp : p.1 = name
    · have hfp : decide (p.1 ≠ name) = false := by simp [hp]
      have hm : ¬ p.1 = m := by rw [hp]; exact h
      rw [hfp]
      simp only [Bool.false_eq_true, if_false]
      rw [show lookupB (p :: rest) m = lookupB rest m by simp [lookupB, hm]]
      exact ih
    · have hfp : decide (p.1 ≠ name) = true := by simp [hp]
      rw [hfp]
      simp only [if_true]
      by_cases hm : p.1 = m
      · simp [lookupB, hm]
      · simp only [lookupB, hm, if_false]
        exact ih

theorem lookupB_removeB {β : Type} (l : List (String × β)) (name m : String) :
    lookupB (removeB l name) m = if name = m then none else lookupB l m := by
  by_cases h : name = m
  · subst h
    simp [lookupB_removeB_self]
  · rw [if_neg h]
    exact lookupB_removeB_ne l name m h

theorem lookupB_setB {β : Type} (l : List (String × β)) (name m : String) (c : β) :
    lookupB (setB l name c) m = if name = m then some c else lookupB l m := by
  by_cases h : name = m
  · simp [setB, lookupB, h]
  · simp [setB, lookupB, h, lookupB_removeB_ne l name m h]

theorem lookupB_isSome_iff {β : Type} (l : List (String × β)) (name : String) :
    (lookupB l name).isSome ↔ name ∈ l.map Prod.fst := by
  induction l with
  | nil => simp [lookupB]
  | cons p rest ih =>
    by_cases hp : p.1 = name
    · simp [lookupB, hp]
    · simp only [lookupB, hp, if_false, List.map_cons, List.mem_cons]
      rw [ih]
      constructor
      · exact Or.inr
      · intro hc
        cases hc with
        | inl h => exact absurd h.symm hp
        | inr h => exact h

theorem resIsErr_rev_parse (st : GitState) (name : String) :
    resIsErr (rev_parse_verify name st).1 = !(refExists st name) := by
  cases h : refExists st name with
  | true => simp [rev_parse_verify, resIsErr, h]
  | false => simp [rev_parse_verify, resIsErr, h]

theorem numbered_inj (b : String) (m n : Nat) (h : numbered m b = numbered n b) :
    m = n := by
  have hd := congrArg String.data h
  simp only [numbered, String.data_append] at hd
  have h2 := List.append_cancel_right hd
  have h3 := List.append_cancel_right h2
  exact nat_repr_injective (String.ext h3)

theorem probe_eq_none (st : GitState) (b : String) :
    ∀ fuel n, probe st b fuel n = none →
      ∀ i, i < fuel → refExists st (numbered (n + i) b) = true := by
  intro fuel
  induction fuel with
  | zero => intro n _ i hi; omega
  | succ fuel ih =>
    intro n hp i hi
    rw [probe] at hp
    cases hfree : resIsErr (rev_parse_verify (numbered n b) st).1 with
    | true => rw [hfree] at hp; simp at hp
    | false =>
      rw [hfree] at hp
      simp only [Bool.false_eq_true, if_false] at hp
      have hex : refExists st (numbered n b) = true := by
        rw [resIsErr_rev_parse] at hfree
        simpa using hfree
      cases i with
      | zero => simpa using hex
      | succ i =>
        have := ih (n + 1) hp i (by omega)
        have harr : n + 1 + i = n + (i + 1) := by omega
        rwa [harr] at this

theorem probe_eq_some (st : GitState) (b : String) :
    ∀ fuel n m, probe st b fuel n = some m →
      n ≤ m ∧ refExists st (numbered m b) = false ∧
        ∀ j, n ≤ j → j < m → refExists st (numbered j b) = true := by
  intro fuel
  induction fuel with
  | zero => intro n m hp; simp [probe] at hp
  | succ fuel ih =>
    intro n m hp
    rw [probe] at hp
    cases hfree : resIsErr (rev_parse_verify (numbered n b) st).1 with
    | true =>
      rw [hfree] at hp
      simp only [if_true] at hp
      have hm : n = m := by simpa using hp
      subst hm
      refine ⟨Nat.le_refl n, ?_, ?_⟩
      · rw [resIsErr_rev_parse] at hfree
        simpa using hfree
      · intro j h1 h2; omega
    | false =>
      rw [hfree] at hp
      simp only [Bool.false_eq_true, if_false] at hp
      obtain ⟨h1, h2, h3⟩ := ih (n + 1) m hp
      have hex : refExists st (numbered n b) = true := by
        rw [resIsErr_rev_parse] at hfree
        simpa using hfree
      refine ⟨by omega, h2, ?_⟩
      intro j hj1 hj2
      by_cases hj : j = n
      · exact hj ▸ hex
      · exact h3 j (by omega) hj2

/-- Pigeonhole: the probe fuel the source's callers effectively have
(one more candidate than there are existing branches) always finds a
free numbered name, so the `.expect` in the source can never fire. -/
theorem probe_isSome (st : GitState) (b : String) :
    (probe st b (st.branches.length + 1) 2).isSome = true := by
  by_contra hcon
  have hnone : probe st b (st.branches.length + 1) 2 = none := by
    cases hp : probe st b (st.branches.length + 1) 2 with
    | none => rfl
    | some m => rw [hp] at hcon; simp at hcon
  have hall := probe_eq_none st b (st.branches.length + 1) 2 hnone
  have hmem : ∀ i, i < st.branches.length + 1 →
      numbered (2 + i) b ∈ st.branches.map Prod.fst := by
    intro i hi
    have := hall i hi
    unfold refExists at this
    exact (lookupB_isSome_iff st.branches (numbered (2 + i) b)).mp this
  have hsub : (Finset.range (st.branches.length + 1)).image
      (fun i => numbered (2 + i) b) ⊆ (st.branches.map Prod.fst).toFinset := by
    intro x hx
    rw [Finset.mem_image] at hx
    obtain ⟨i, hi, rfl⟩ := hx
    rw [List.mem_toFinset]
    exact hmem i (Finset.mem_range.mp hi)
  have hinj : Set.InjOn (fun i => numbered (2 + i) b)
      (Finset.range (st.branches.length + 1)) := by
    intro i _ j _ hij
    have := numbered_inj b (2 + i) (2 + j) hij
    omega
  have hcard1 : ((Finset.range (st.branches.length + 1)).image
      (fun i => numbered (2 + i) b)).card = st.branches.length + 1 := by
    rw [Finset.card_image_of_injOn hinj, Finset.card_range]
  have hcard2 := Finset.card_le_card hsub
  have hcard3 := (st.branches.map Prod.fst).toFinset_card_le
  rw [hcard1] at hcard2
  simp only [List.length_map] at hcard3
  omega

/-- Allocation never returns an existing ref. -/
theorem availableBranchName_not_exists (st : GitState) (b : String) :
    refExists st (availableBranchName st b) = false := by
  simp only [availableBranchName, find_first_available_branch, resIsErr_rev_parse]
  cases h : refExists st b with
  | false => simp [h]
  | true =>
    simp only [h, Bool.not_true, Bool.false_eq_true, if_false]
    cases hp : probe st b (st.branches.length + 1) 2 with
    | none =>
      have hs := probe_isSome st b
      rw [hp] at hs
      simp at hs
    | some m =>
      simp only [hp]
      exact (probe_eq_some st b (st.branches.length + 1) 2 m hp).2.1

theorem removeB_eq_self {β : Type} (l : List (String × β)) (name : String)
    (h : lookupB l name = none) : removeB l name = l := by
  induction l with
  | nil => simp [removeB]
  | cons p rest ih =>
    simp only [lookupB] at h
    by_cases hp : p.1 = name
    · rw [if_pos hp] at h
      exact absurd h (by simp)
    · rw [if_neg hp] at h
      simp only [removeB, List.filter_cons]
      have : decide (p.1 ≠ name) = true := by simp [hp]
      rw [this]
      simp only [if_true]
      rw [show List.filter (fun p => decide (p.1 ≠ name)) rest = removeB rest name from rfl, ih h]

theorem filter_ne_eq_self (l : List String) (a : String) (h : a ∉ l) :
    l.filter (fun r => decide (r ≠ a)) = l := by
  induction l with
  | nil => simp
  | cons x rest ih =>
    have hx : x ≠ a := by
      intro e
      exact h (e ▸ List.mem_cons_self x rest)
    have hr : a ∉ rest := fun hm => h (List.mem_cons_of_mem x hm)
    simp [List.filter_cons, hx, ih hr]
    intro y hy e
    exact hr (e ▸ hy)

theorem findSplit_post_lt (sep : List Char) (hsep : sep ≠ []) :
    ∀ (s pre post : List Char), findSplit sep s = some (pre, post) →
      post.length < s.length := by
  intro s
  induction s with
  | nil => intro pre post h; simp [findSplit] at h
  | cons c rest ih =>
    intro pre post h
    rw [findSplit] at h
    by_cases hp : sep.isPrefixOf (c :: rest) = true
    · rw [if_pos hp] at h
      have hpost : post = (c :: rest).drop sep.length := by
        have h2 := congrArg (fun o => Option.map Prod.snd o) h
        simpa using h2.symm
      have hlen : 0 < sep.length := List.length_pos.mpr hsep
      subst hpost
      rw [List.length_drop]
      simp only [List.length_cons]
      omega
    · rw [if_neg hp] at h
      cases hf : findSplit sep rest with
      | none => rw [hf] at h; simp at h
      | some pr =>
        obtain ⟨pre2, post2⟩ := pr
        rw [hf] at h
        have hpost : post = post2 := by
          have h2 := congrArg (fun o => Option.map Prod.snd o) h
          simpa using h2.symm
        have hlt := ih pre2 post2 hf
        rw [hpost]
        simp only [List.length_cons]
        omega

theorem splitLoop_fuel (sep : List Char) (hsep : sep ≠ []) :
    ∀ (fuel1 fuel2 : Nat) (s : List Char), s.length < fuel1 → s.length < fuel2 →
      splitLoop sep fuel1 s = splitLoop sep fuel2 s := by
  intro fuel1
  induction fuel1 with
  | zero => intro fuel2 s h1 _; omega
  | succ f1 ih =>
    intro fuel2 s h1 h2
    cases fuel2 with
    | zero => omega
    | succ f2 =>
      rw [splitLoop, splitLoop]
      cases hf : findSplit sep s with
      | none => rfl
      | some pr =>
        obtain ⟨pre, post⟩ := pr
        have hlt := findSplit_post_lt sep hsep s pre post hf
        show pre :: splitLoop sep f1 post = pre :: splitLoop sep f2 post
        rw [ih f2 post (by omega) (by omega)]

/-! ## Claims -/

/-- C3: for every desired branch name and every set of existing git
refs, `find_first_available_branch` (as matched by its callers,
`availableBranchName`) returns the desired name unchanged when it is not
an existing ref, and otherwise the name `"{n}-{desired}"` for the
smallest `n ≥ 2` that is not an existing ref; the returned name is never
an existing ref, and the `rev-parse --verify` probes leave the
repository state unchanged. -/
theorem claim_C3 (st : GitState) (desired : String) :
    (refExists st desired = false → availableBranchName st desired = desired) ∧
    (refExists st desired = true →
      ∃ n, 2 ≤ n ∧ availableBranchName st desired = numbered n desired ∧
        refExists st (numbered n desired) = false ∧
        ∀ m, 2 ≤ m → m < n → refExists st (numbered m desired) = true) ∧
    refExists st (availableBranchName st desired) = false ∧
    (∀ name, (rev_parse_verify name st).2 = st) := by
  refine ⟨?_, ?_, availableBranchName_not_exists st desired, fun name => rfl⟩
  · intro h
    simp [availableBranchName, find_first_available_branch, resIsErr_rev_parse, h]
  · intro h
    have hs := probe_isSome st desired
    cases hp : probe st desired (st.branches.length + 1) 2 with
    | none =>
      rw [hp] at hs
      simp at hs
    | some m =>
      obtain ⟨h2, hfree, hmin⟩ := probe_eq_some st desired _ 2 m hp
      refine ⟨m, h2, ?_, hfree, fun j hj1 hj2 => hmin j hj1 hj2⟩
      simp [availableBranchName, find_first_available_branch, resIsErr_rev_parse, h, hp]

/-- Witness for C3 at a repository where both `feature` and `2-feature`
exist: the allocator answers `3-feature`, which is not an existing ref. -/
theorem claim_C3_witness :
    refExists (GitState.mk [("feature", 5), ("2-feature", 6)] [] "main" false false false 0)
      (availableBranchName
        (GitState.mk [("feature", 5), ("2-feature", 6)] [] "main" false false false 0)
        "feature") = false ∧
    availableBranchName
      (GitState.mk [("feature", 5), ("2-feature", 6)] [] "main" false false false 0)
      "feature" = "3-feature" := by
  have hex := (claim_C3
    (GitState.mk [("feature", 5), ("2-feature", 6)] [] "main" false false false 0)
    "feature").2.1 (by decide)
  exact ⟨(claim_C3
    (GitState.mk [("feature", 5), ("2-feature", 6)] [] "main" false false false 0)
    "feature").2.2.1, by decide⟩

/-- C10: parsing a textual `Ref` of the form `<item> @ <commit>` is
total (the error type is `Infallible`); when the input contains `" @ "`
but the text after the last `" @ "` is empty or not a string of hex
digits, the commit pin is silently `none`; and when the input contains
more than one `" @ "`, the item is the concatenation of all earlier
parts with the separators removed. -/
theorem claim_C10 (s : String) :
    (∃ r, ref_from_str s = Except.ok r) ∧
    (2 ≤ (rust_split s " @ ").length →
      ((rust_split s " @ ").getLast?.getD "" = "" ∨
        is_valid_commit_hash ((rust_split s " @ ").getLast?.getD "") = false) →
      (parse_ref s).commit = none) ∧
    (2 ≤ (rust_split s " @ ").length →
      (parse_ref s).item =
        String.join ((rust_split s " @ ").take ((rust_split s " @ ").length - 1))) := by
  refine ⟨⟨parse_ref s, rfl⟩, ?_, ?_⟩
  · intro hlen hbad
    have hne : ¬ (rust_split s " @ ").length = 1 := by omega
    simp only [parse_ref, hne, if_false]
    cases hbad with
    | inl h => simp [commit_id_try_new, h]
    | inr h =>
      simp only [commit_id_try_new, h]
      rw [if_neg]
      intro hc
      exact absurd hc.2 (by simp)
  · intro hlen
    have hne : ¬ (rust_split s " @ ").length = 1 := by omega
    simp [parse_ref, hne]

/-- Witness for C10 at `"a @ b @ zz"`: three parts, the last not hex, so
the item is `"ab"` and the pin is dropped. -/
theorem claim_C10_witness :
    (parse_ref "a @ b @ zz").commit = none ∧
    (parse_ref "a @ b @ zz").item = "ab" :=
  ⟨(claim_C10 "a @ b @ zz").2.1 (by decide) (Or.inr (by decide)), by decide⟩

theorem fs_read_snd (read_ok : String → Bool) (fs : List (String × String))
    (name : String) : (fs_read read_ok fs name).2 = fs := rfl

theorem backup_snd (read_ok : String → Bool) (names : List String)
    (fs : List (String × String)) : (backup read_ok names fs).2 = fs := by
  induction names with
  | nil => rfl
  | cons name rest ih =>
    unfold backup
    split
    · next e fs1 heq =>
      have h2 := fs_read_snd read_ok fs name
      rw [heq] at h2
      exact h2
    · next contents fs1 heq =>
      have h2 := fs_read_snd read_ok fs name
      rw [heq] at h2
      subst h2
      split
      · next e fs2 heq2 =>
        rw [heq2] at ih
        exact ih
      · next bs fs2 heq2 =>
        rw [heq2] at ih
        exact ih

theorem backup_values (read_ok : String → Bool) (names : List String)
    (fs : List (String × String))
    (h : ∀ n ∈ names, read_ok n = true ∧ (lookupB fs n).isSome = true) :
    (backup read_ok names fs).1 =
      Except.ok (names.map (fun n => FileBackup.mk n ((lookupB fs n).getD ""))) := by
  induction names with
  | nil => rfl
  | cons name rest ih =>
    obtain ⟨hro, hsome⟩ := h name (List.mem_cons_self name rest)
    cases hl : lookupB fs name with
    | none => rw [hl] at hsome; simp at hsome
    | some c =>
      have hfr : fs_read read_ok fs name = (Except.ok c, fs) := by
        simp [fs_read, hro, hl]
      have ihr := ih (fun n hn => h n (List.mem_cons_of_mem name hn))
      unfold backup
      split
      · next e fs1 heq =>
        rw [hfr] at heq
        exact absurd heq (by simp)
      · next contents fs1 heq =>
        rw [hfr] at heq
        have hc : c = contents := by
          have h3 := congrArg Prod.fst heq
          simpa using h3
        have hfs1 : fs = fs1 := by
          have h3 := congrArg Prod.snd heq
          simpa using h3
        subst hc
        subst hfs1
        split
        · next e fs2 heq2 =>
          rw [heq2] at ihr
          simp at ihr
        · next bs fs2 heq2 =>
          rw [heq2] at ihr
          simp only [Except.ok.injEq] at ihr
          simp [ihr, hl]

theorem restore_preserves (write_ok : String → Bool) (files : List FileBackup) :
    ∀ fs n, n ∉ files.map FileBackup.filename →
      lookupB (restore write_ok files fs).2 n = lookupB fs n := by
  induction files with
  | nil => intro fs n _; rfl
  | cons fb rest ih =>
    intro fs n hn
    have hne : fb.filename ≠ n := by
      intro e
      exact hn (e ▸ List.mem_map_of_mem FileBackup.filename (List.mem_cons_self fb rest))
    have hrest : n ∉ rest.map FileBackup.filename := by
      intro hm
      exact hn (by simpa using Or.inr (by simpa using hm))
    simp only [restore, fs_write]
    by_cases hw : write_ok fb.filename = true
    · simp only [hw, if_true]
      rw [ih (setB fs fb.filename fb.contents) n hrest, lookupB_setB]
      simp [hne]
    · simp only [Bool.not_eq_true] at hw
      simp [hw]

theorem restore_all_ok (write_ok : String → Bool) (files : List FileBackup) :
    ∀ fs, (∀ fb ∈ files, write_ok fb.filename = true) →
      (restore write_ok files fs).1 = Except.ok () := by
  induction files with
  | nil => intro fs _; rfl
  | cons fb rest ih =>
    intro fs h
    have hw := h fb (List.mem_cons_self fb rest)
    simp only [restore, fs_write, hw, if_true]
    exact ih (setB fs fb.filename fb.contents)
      (fun x hx => h x (List.mem_cons_of_mem fb hx))

theorem restore_lookup (write_ok : String → Bool) (files : List FileBackup) :
    ∀ fs, (∀ fb ∈ files, write_ok fb.filename = true) →
      (files.map FileBackup.filename).Nodup →
      ∀ fb ∈ files, lookupB (restore write_ok files fs).2 fb.filename = some fb.contents := by
  induction files with
  | nil => intro fs _ _ fb hfb; simp at hfb
  | cons fb0 rest ih =>
    intro fs h hnodup fb hfb
    rw [List.map_cons] at hnodup
    have hpair := List.nodup_cons.mp hnodup
    have hw := h fb0 (List.mem_cons_self fb0 rest)
    simp only [restore, fs_write, hw, if_true]
    rcases List.mem_cons.mp hfb with rfl | hmem
    · rw [restore_preserves write_ok rest _ fb.filename hpair.1, lookupB_setB]
      simp
    · exact ih (setB fs fb0.filename fb0.contents)
        (fun x hx => h x (List.mem_cons_of_mem fb0 hx)) hpair.2 fb hmem

theorem restore_abort (write_ok : String → Bool) (bad : FileBackup)
    (post : List FileBackup) (hbad : write_ok bad.filename = false) :
    ∀ (pre : List FileBackup) fs, (∀ fb ∈ pre, write_ok fb.filename = true) →
      resIsErr (restore write_ok (pre ++ bad :: post) fs).1 = true ∧
      (restore write_ok (pre ++ bad :: post) fs).2 = (restore write_ok pre fs).2 := by
  intro pre
  induction pre with
  | nil =>
    intro fs _
    simp [restore, fs_write, hbad, resIsErr]
  | cons fb rest ih =>
    intro fs h
    have hw := h fb (List.mem_cons_self fb rest)
    simp only [List.cons_append, restore, fs_write, hw, if_true]
    exact ih (setB fs fb.filename fb.contents)
      (fun x hx => h x (List.mem_cons_of_mem fb hx))

theorem lookupB_eq_of_mem_nodup {β : Type} (l : List (String × β))
    (hnodup : (l.map Prod.fst).Nodup) :
    ∀ p ∈ l, lookupB l p.1 = some p.2 := by
  induction l with
  | nil => intro p hp; simp at hp
  | cons q rest ih =>
    intro p hp
    rw [List.map_cons] at hnodup
    have hpair := List.nodup_cons.mp hnodup
    rcases List.mem_cons.mp hp with rfl | hmem
    · simp [lookupB]
    · have hq : q.1 ≠ p.1 := by
        intro e
        exact hpair.1 (e ▸ List.mem_map_of_mem Prod.fst hmem)
      simp only [lookupB, hq, if_false]
      exact ih hpair.2 p hmem

/-- C6: restoring the backups of the config directory reproduces
byte-identical contents under the same filenames; backing up does not
mutate the filesystem; and the first failure to write one file aborts
the whole restore, surfaced as an error, with only the files before the
failing one written. -/
theorem claim_C6 (read_ok write_ok : String → Bool)
    (fs fs' : List (String × String))
    (hnodup : (fs.map Prod.fst).Nodup)
    (hread : ∀ n ∈ fs.map Prod.fst, read_ok n = true) :
    (∃ bs, (backup read_ok (fs.map Prod.fst) fs).1 = Except.ok bs ∧
      ((∀ n ∈ fs.map Prod.fst, write_ok n = true) →
        (restore write_ok bs fs').1 = Except.ok () ∧
        ∀ p ∈ fs, lookupB (restore write_ok bs fs').2 p.1 = some p.2)) ∧
    (backup read_ok (fs.map Prod.fst) fs).2 = fs ∧
    (∀ (pre : List FileBackup) (bad : FileBackup) (post : List FileBackup),
      (∀ fb ∈ pre, write_ok fb.filename = true) →
      write_ok bad.filename = false →
      resIsErr (restore write_ok (pre ++ bad :: post) fs').1 = true ∧
      (restore write_ok (pre ++ bad :: post) fs').2 = (restore write_ok pre fs').2) := by
  refine ⟨?_, backup_snd read_ok (fs.map Prod.fst) fs, ?_⟩
  · refine ⟨(fs.map Prod.fst).map (fun n => FileBackup.mk n ((lookupB fs n).getD "")), ?_, ?_⟩
    · exact backup_values read_ok (fs.map Prod.fst) fs (fun n hn =>
        ⟨hread n hn, (lookupB_isSome_iff fs n).mpr hn⟩)
    · intro hwrite
      have hmapnames : ((fs.map Prod.fst).map
          (fun n => FileBackup.mk n ((lookupB fs n).getD ""))).map FileBackup.filename
          = fs.map Prod.fst := by
        rw [List.map_map]
        simp [Function.comp]
      have hok : ∀ fb ∈ (fs.map Prod.fst).map
          (fun n => FileBackup.mk n ((lookupB fs n).getD "")),
          write_ok fb.filename = true := by
        intro fb hfb
        rw [List.mem_map] at hfb
        obtain ⟨n, hn, rfl⟩ := hfb
        exact hwrite n hn
      have hnodup2 : (((fs.map Prod.fst).map
          (fun n => FileBackup.mk n ((lookupB fs n).getD ""))).map
            FileBackup.filename).Nodup := by
        rw [hmapnames]
        exact hnodup
      refine ⟨restore_all_ok write_ok _ fs' hok, ?_⟩
      intro p hp
      have hmm : FileBackup.mk p.1 ((lookupB fs p.1).getD "") ∈
          (fs.map Prod.fst).map (fun n => FileBackup.mk n ((lookupB fs n).getD "")) :=
        List.mem_map_of_mem _ (List.mem_map_of_mem Prod.fst hp)
      have hlp : lookupB fs p.1 = some p.2 := lookupB_eq_of_mem_nodup fs hnodup p hp
      have hres := restore_lookup write_ok _ fs' hok hnodup2 _ hmm
      simpa [hlp] using hres
  · intro pre bad post hpre hbad
    exact restore_abort write_ok bad post hbad pre fs' hpre

/-- Witness for C6 at a two-file config directory with all reads and
writes succeeding. -/
theorem claim_C6_witness :
    ((([("config.toml", "x"), ("a.patch", "y")] : List (String × String)).map
      Prod.fst).Nodup) ∧
    (backup (fun _ => true)
      (([("config.toml", "x"), ("a.patch", "y")] : List (String × String)).map Prod.fst)
      [("config.toml", "x"), ("a.patch", "y")]).2
      = [("config.toml", "x"), ("a.patch", "y")] :=
  ⟨by decide,
    (claim_C6 (fun _ => true) (fun _ => true)
      [("config.toml", "x"), ("a.patch", "y")] [] (by decide)
      (fun n _ => rfl)).2.1⟩

theorem filter_bne_eq_self (l : List String) (a : String) (h : a ∉ l) :
    l.filter (fun r => !decide (r = a)) = l := by
  induction l with
  | nil => simp
  | cons x rest ih =>
    have hx : ¬ x = a := by
      intro e
      exact h (e ▸ List.mem_cons_self x rest)
    have hr : a ∉ rest := fun hm => h (List.mem_cons_of_mem x hm)
    simp [List.filter_cons, hx, ih hr]

theorem removeB_removeB {β : Type} (l : List (String × β)) (name : String) :
    removeB (removeB l name) name = removeB l name :=
  removeB_eq_self _ _ (lookupB_removeB_self l name)

theorem removeB_setB {β : Type} (l : List (String × β)) (name : String)
    (c : β) : removeB (setB l name c) name = removeB l name := by
  simp only [setB, removeB, List.filter_cons]
  have hd : decide ((name, c).1 ≠ name) = false := by simp
  rw [hd]
  simp only [Bool.false_eq_true, if_false]
  exact removeB_removeB l name

/-- C9: when the checkout of the freshly fetched working branch fails,
the fetch stage of `run` deletes the just-created ephemeral remote and
branch and returns an error (aborting the run), and the resulting
repository state is exactly the state before the fetch: the user is
still on their original branch. -/
theorem claim_C9 (o : FetchOracle) (commit_hash : Option String)
    (info : RemoteBranch) (st : GitState)
    (hfetch : o.fetch_ok = true) (hpin : o.pin_ok = true)
    (halias : info.remote.local_remote_alias ∉ st.remotes)
    (hbranch : lookupB st.branches info.branch.local_branch_name = none)
    (hhead : info.branch.local_branch_name ≠ st.head) :
    resIsErr (run_fetch_stage o commit_hash true false info st).1 = true ∧
    (run_fetch_stage o commit_hash true false info st).2 = st := by
  obtain ⟨br, rem, hd, sg, dt, am, nc⟩ := st
  simp only [] at hbranch hhead halias
  have hrm : removeB (setB br info.branch.local_branch_name
      o.fetched_commit) info.branch.local_branch_name = br := by
    rw [removeB_setB]
    exact removeB_eq_self _ _ hbranch
  have hrm2 : removeB (setB (setB br info.branch.local_branch_name
      o.fetched_commit) info.branch.local_branch_name o.pin_commit)
      info.branch.local_branch_name = br := by
    rw [removeB_setB, removeB_setB]
    exact removeB_eq_self _ _ hbranch
  have hflt : rem.filter
      (fun r => !decide (r = info.remote.local_remote_alias)) = rem :=
    filter_bne_eq_self rem info.remote.local_remote_alias halias
  cases commit_hash with
  | none =>
    simp [run_fetch_stage, add_remote_branch, remote_add, fetch_refspec,
      checkout_from_remote, rev_parse_abbrev_head, checkout,
      delete_remote_and_branch, branch_delete_force, remote_remove,
      resIsErr, halias, hfetch, hhead, lookupB_setB, hrm, hflt,
      List.filter_cons]
  | some c =>
    simp [run_fetch_stage, add_remote_branch, remote_add, fetch_refspec,
      branch_force, checkout_from_remote, rev_parse_abbrev_head, checkout,
      delete_remote_and_branch, branch_delete_force, remote_remove,
      resIsErr, halias, hfetch, hpin, hhead, lookupB_setB, hrm2, hflt,
      List.filter_cons]

/-- Witness for C9 at a one-branch repository: the failed checkout of
the fetched branch `b` leaves the state exactly as it was. -/
theorem claim_C9_witness :
    resIsErr (run_fetch_stage (FetchOracle.mk true 7 true 7) none true false
      (RemoteBranch.mk (ApiRemote.mk "https://x.git" "r") (ApiBranch.mk "u" "b"))
      (GitState.mk [("main", 0)] [] "main" false false false 10)).1 = true ∧
    (run_fetch_stage (FetchOracle.mk true 7 true 7) none true false
      (RemoteBranch.mk (ApiRemote.mk "https://x.git" "r") (ApiBranch.mk "u" "b"))
      (GitState.mk [("main", 0)] [] "main" false false false 10)).2
      = GitState.mk [("main", 0)] [] "main" false false false 10 :=
  claim_C9 (FetchOracle.mk true 7 true 7) none
    (RemoteBranch.mk (ApiRemote.mk "https://x.git" "r") (ApiBranch.mk "u" "b"))
    (GitState.mk [("main", 0)] [] "main" false false false 10)
    rfl rfl (by decide) (by decide) (by decide)

/-- C2: in the final Overwriting step, when auto-confirm is on or the
user confirms, the uniquely named temporary branch is force-renamed onto
`config.local_branch`, which afterwards points at the temporary branch's
commit (and the temporary name is gone); when the user declines,
`config.local_branch` is untouched, the temporary branch with the merged
content remains, the manual rename command is printed, and the step
returns success. -/
theorem claim_C2 (uuid : String) (yes confirmed : Bool) (local_branch : String)
    (info : RemoteBranch) (st : GitState)
    (htemp : lookupB st.branches (with_uuid uuid "temp-branch") = none)
    (heph : (lookupB st.branches info.branch.local_branch_name).isSome = true)
    (hephne : info.branch.local_branch_name ≠ with_uuid uuid "temp-branch")
    (hrem : info.remote.local_remote_alias ∈ st.remotes)
    (hlbtemp : local_branch ≠ with_uuid uuid "temp-branch")
    (hlbeph : local_branch ≠ info.branch.local_branch_name) :
    ((yes || confirmed) = true →
      (run_overwrite uuid yes confirmed local_branch info st).1 = Except.ok () ∧
      lookupB (run_overwrite uuid yes confirmed local_branch info st).2.1.branches
        local_branch = some ((lookupB st.branches st.head).getD 0) ∧
      lookupB (run_overwrite uuid yes confirmed local_branch info st).2.1.branches
        (with_uuid uuid "temp-branch") = none) ∧
    (yes = false → confirmed = false →
      (run_overwrite uuid yes confirmed local_branch info st).1 = Except.ok () ∧
      lookupB (run_overwrite uuid yes confirmed local_branch info st).2.1.branches
        local_branch = lookupB st.branches local_branch ∧
      lookupB (run_overwrite uuid yes confirmed local_branch info st).2.1.branches
        (with_uuid uuid "temp-branch")
        = some ((lookupB st.branches st.head).getD 0) ∧
      (run_overwrite uuid yes confirmed local_branch info st).2.2
        = ["You can still manually overwrite " ++ local_branch ++ " with:\n  "
            ++ "git branch --move --force " ++ with_uuid uuid "temp-branch" ++ " "
            ++ local_branch ++ "\n"]) := by
  obtain ⟨br, rem, hd, sg, dt, am, nc⟩ := st
  simp only [] at htemp heph hrem
  constructor
  · intro hyc
    simp [run_overwrite, switch_create, delete_remote_and_branch,
      branch_delete_force, remote_remove, branch_move_force, hyc,
      htemp, heph, hrem, lookupB_setB, lookupB_removeB, lookupB_removeB_self,
      hephne, Ne.symm hephne, hlbtemp, Ne.symm hlbtemp, hlbeph, Ne.symm hlbeph]
  · intro hy hc
    subst hy
    subst hc
    simp [run_overwrite, switch_create, delete_remote_and_branch,
      branch_delete_force, remote_remove, branch_move_force,
      htemp, heph, hrem, lookupB_setB, lookupB_removeB, lookupB_removeB_self,
      hephne, Ne.symm hephne, hlbtemp, Ne.symm hlbtemp, hlbeph, Ne.symm hlbeph]

/-- Witness for C2: with auto-confirm on, `patchy` (at commit 3, the
commit the temporary branch was created from) replaces the old
`patchy` binding; with both flags off, `patchy` is untouched and the
temporary branch remains. -/
theorem claim_C2_witness :
    ((run_overwrite "u1" true false "patchy"
        (RemoteBranch.mk (ApiRemote.mk "https://x.git" "r") (ApiBranch.mk "u" "b"))
        (GitState.mk [("work", 3), ("b", 2), ("patchy", 1)] ["r"] "work"
          false false false 10)).1 = Except.ok () ∧
      lookupB (run_overwrite "u1" true false "patchy"
        (RemoteBranch.mk (ApiRemote.mk "https://x.git" "r") (ApiBranch.mk "u" "b"))
        (GitState.mk [("work", 3), ("b", 2), ("patchy", 1)] ["r"] "work"
          false false false 10)).2.1.branches "patchy" = some 3 ∧
      lookupB (run_overwrite "u1" true false "patchy"
        (RemoteBranch.mk (ApiRemote.mk "https://x.git" "r") (ApiBranch.mk "u" "b"))
        (GitState.mk [("work", 3), ("b", 2), ("patchy", 1)] ["r"] "work"
          false false false 10)).2.1.branches "u1-temp-branch" = none) ∧
    lookupB (run_overwrite "u1" false false "patchy"
      (RemoteBranch.mk (ApiRemote.mk "https://x.git" "r") (ApiBranch.mk "u" "b"))
      (GitState.mk [("work", 3), ("b", 2), ("patchy", 1)] ["r"] "work"
        false false false 10)).2.1.branches "patchy" = some 1 := by
  constructor
  · exact (claim_C2 "u1" true false "patchy"
      (RemoteBranch.mk (ApiRemote.mk "https://x.git" "r") (ApiBranch.mk "u" "b"))
      (GitState.mk [("work", 3), ("b", 2), ("patchy", 1)] ["r"] "work"
        false false false 10)
      (by decide) (by decide) (by decide) (by decide) (by decide) (by decide)).1 rfl
  · have hdecl := (claim_C2 "u1" false false "patchy"
      (RemoteBranch.mk (ApiRemote.mk "https://x.git" "r") (ApiBranch.mk "u" "b"))
      (GitState.mk [("work", 3), ("b", 2), ("patchy", 1)] ["r"] "work"
        false false false 10)
      (by decide) (by decide) (by decide) (by decide) (by decide) (by decide)).2 rfl rfl
    rw [hdecl.2.1]
    decide

/-- C5: patches are applied in the listed order; a patch whose file does
not exist is skipped without failing the run; the first patch whose
application conflicts triggers `git am --abort` and fails the run
immediately, so no later patch is attempted: the attempted list ends at
the conflicting patch and only the earlier existing patches were
applied. -/
theorem claim_C5 :
    (∀ (p : PatchItem) (rest : List PatchItem) (st : GitState),
      p.file_found = false → apply_patches (p :: rest) st = apply_patches rest st) ∧
    (∀ (items : List PatchItem) (st : GitState),
      (∀ p ∈ items, p.file_found = true → p.am_ok = true) →
      (apply_patches items st).1 = Except.ok () ∧
      (apply_patches items st).2.2.1 =
        (items.filter (fun p => p.file_found)).map PatchItem.name) ∧
    (∀ (pre : List PatchItem) (bad : PatchItem) (post : List PatchItem)
        (st : GitState),
      (∀ p ∈ pre, p.file_found = true → p.am_ok = true) →
      bad.file_found = true → bad.am_ok = false →
      resIsErr (apply_patches (pre ++ bad :: post) st).1 = true ∧
      (apply_patches (pre ++ bad :: post) st).2.2.2 =
        ((pre.filter (fun p => p.file_found)).map PatchItem.name) ++ [bad.name] ∧
      (apply_patches (pre ++ bad :: post) st).2.2.1 =
        (pre.filter (fun p => p.file_found)).map PatchItem.name ∧
      (apply_patches (pre ++ bad :: post) st).2.1.am_in_progress = false) := by
  refine ⟨?_, ?_, ?_⟩
  · intro p rest st hf
    simp [apply_patches, hf]
  · intro items
    induction items with
    | nil => intro st _; simp [apply_patches]
    | cons p rest ih =>
      intro st h
      by_cases hf : p.file_found = true
      · have ham := h p (List.mem_cons_self p rest) hf
        have ihr := ih ({ st with
            branches := setB st.branches st.head st.next_commit
            next_commit := st.next_commit + 1 })
          (fun x hx => h x (List.mem_cons_of_mem p hx))
        simp [apply_patches, hf, ham, git_am, List.filter_cons, ihr.1, ihr.2]
      · simp only [Bool.not_eq_true] at hf
        have ihr := ih st (fun x hx => h x (List.mem_cons_of_mem p hx))
        simp [apply_patches, hf, List.filter_cons, ihr.1, ihr.2]
  · intro pre bad post
    induction pre with
    | nil =>
      intro st _ hbf hbam
      simp [apply_patches, hbf, hbam, git_am, git_am_abort, resIsErr]
    | cons p pre' ih =>
      intro st h hbf hbam
      by_cases hf : p.file_found = true
      · have ham := h p (List.mem_cons_self p pre') hf
        have ihr := ih ({ st with
            branches := setB st.branches st.head st.next_commit
            next_commit := st.next_commit + 1 })
          (fun x hx => h x (List.mem_cons_of_mem p hx)) hbf hbam
        simp [apply_patches, hf, ham, git_am, List.filter_cons,
          ihr.1, ihr.2.1, ihr.2.2.1, ihr.2.2.2]
      · simp only [Bool.not_eq_true] at hf
        have ihr := ih st (fun x hx => h x (List.mem_cons_of_mem p hx)) hbf hbam
        simp [apply_patches, hf, List.filter_cons,
          ihr.1, ihr.2.1, ihr.2.2.1, ihr.2.2.2]

/-- Witness for C5 at patches `[a, b, c]` where `b` conflicts: `a` is
applied, `b` is attempted and fails, `c` is never attempted, and the
in-progress apply has been aborted. -/
theorem claim_C5_witness :
    resIsErr (apply_patches
      [PatchItem.mk "a" true true, PatchItem.mk "b" true false,
        PatchItem.mk "c" true true]
      (GitState.mk [("main", 0)] [] "main" false false false 5)).1 = true ∧
    (apply_patches
      [PatchItem.mk "a" true true, PatchItem.mk "b" true false,
        PatchItem.mk "c" true true]
      (GitState.mk [("main", 0)] [] "main" false false false 5)).2.2.2
      = ["a", "b"] ∧
    (apply_patches
      [PatchItem.mk "a" true true, PatchItem.mk "b" true false,
        PatchItem.mk "c" true true]
      (GitState.mk [("main", 0)] [] "main" false false false 5)).2.2.1
      = ["a"] := by
  have h := claim_C5.2.2 [PatchItem.mk "a" true true] (PatchItem.mk "b" true false)
    [PatchItem.mk "c" true true]
    (GitState.mk [("main", 0)] [] "main" false false false 5)
    (by decide) rfl rfl
  exact ⟨h.1, h.2.1.trans (by decide), h.2.2.1.trans (by decide)⟩

/-- C4: a conflicting squash merge hard-resets the worktree (clearing
staged and unstaged changes, leaving branches untouched) and returns a
conflict error carrying git's error text; the orchestrator's PR loop
treats any per-item failure as non-fatal, producing one result per
configured item; concretely, with three PRs where the second conflicts,
all three are attempted and exactly the second is reported failed. -/
theorem claim_C4 :
    (∀ (stages : Bool) (errText local_branch remote_branch : String)
        (st : GitState),
      merge_into_main true stages errText local_branch remote_branch st =
        (Except.error ("Could not merge " ++ remote_branch ++ "\n"
          ++ (errText ++ " merging " ++ local_branch)),
        { st with staged := false, dirty := false })) ∧
    (∀ (items : List PrRunItem) (st : GitState),
      ((process_pull_requests items st).2).length = items.length) ∧
    (process_pull_requests
      [PrRunItem.mk "1" (some (PrData.mk "url1" "feat1" "T1" "h1"))
        (FetchOracle.mk true 11 true 0) "u1" false true "E",
       PrRunItem.mk "2" (some (PrData.mk "url2" "feat2" "T2" "h2"))
        (FetchOracle.mk true 22 true 0) "u2" true true "E",
       PrRunItem.mk "3" (some (PrData.mk "url3" "feat3" "T3" "h3"))
        (FetchOracle.mk true 33 true 0) "u3" false true "E"]
      (GitState.mk [("main", 0)] [] "main" false false false 100)).2
      = [("1", true), ("2", false), ("3", true)] := by
  refine ⟨?_, ?_, by decide⟩
  · intro stages errText local_branch remote_branch st
    rfl
  · intro items
    induction items with
    | nil => intro st; rfl
    | cons it rest ih =>
      intro st
      simp only [process_pull_requests]
      split
      · simpa using ih _
      · split
        · simpa using ih _
        · simpa using ih _

/-- C8 counterexample: when the squash merge stages no changes (the
branch is already merged, commit id equal on both branches) and there is
no conflict, `merge_pull_request` does NOT report success: the
unconditional commit inside `merge_into_main` finds nothing to commit
and the merge is reported failed. -/
theorem claim_C8_counterexample :
    resIsErr (merge_pull_request false false "E"
      (RemoteBranch.mk (ApiRemote.mk "https://x.git" "r") (ApiBranch.mk "u" "b"))
      "1" "T" "h"
      (GitState.mk [("main", 0), ("b", 0)] ["r"] "main" false false false 10)).1
      = true := by decide

/-- C8 (amended): if the squash merge stages no changes, the
unconditional follow-up commit inside `merge_into_main` is attempted
anyway, fails with "nothing to commit", and the merge is reported as
failed with no commit created; the no-staged-changes guard in
`merge_pull_request` only protects its own second commit, so a
successful merge creates exactly one commit. -/
theorem claim_C8 :
    (∀ (errText : String) (info : RemoteBranch) (pr title url : String)
        (st : GitState),
      merge_pull_request false false errText info pr title url st =
        (Except.error ("Could not merge branch " ++ info.branch.local_branch_name
          ++ " into the current branch for pull request #" ++ pr ++ " " ++ title
          ++ " since the merge is non-trivial. Skipping this PR. Error message from git:\n"
          ++ "nothing to commit, working tree clean"),
        { st with staged := false })) ∧
    (∀ (errText : String) (info : RemoteBranch) (pr title url : String)
        (st : GitState),
      (lookupB st.branches info.branch.local_branch_name).isSome = true →
      info.branch.local_branch_name ≠ st.head →
      info.remote.local_remote_alias ∈ st.remotes →
      (merge_pull_request false true errText info pr title url st).1 = Except.ok () ∧
      (merge_pull_request false true errText info pr title url st).2.next_commit
        = st.next_commit + 1) := by
  constructor
  · intro errText info pr title url st
    rfl
  · intro errText info pr title url st heph hne hrem
    obtain ⟨br, rem, hd, sg, dt, am, nc⟩ := st
    simp only [] at heph hne hrem
    simp [merge_pull_request, merge_into_main, merge_squash, commit_cmd,
      diff_cached_quiet, resIsErr, delete_remote_and_branch,
      branch_delete_force, remote_remove, lookupB_setB, heph, hne, hrem,
      Ne.symm hne]

/-- Witness for the amended C8: a clean one-commit merge at a concrete
repository bumps the commit counter by exactly one and succeeds. -/
theorem claim_C8_witness :
    (merge_pull_request false true "E"
      (RemoteBranch.mk (ApiRemote.mk "https://x.git" "r") (ApiBranch.mk "u" "b"))
      "1" "T" "h"
      (GitState.mk [("main", 0), ("b", 5)] ["r"] "main" false false false 10)).1
      = Except.ok () ∧
    (merge_pull_request false true "E"
      (RemoteBranch.mk (ApiRemote.mk "https://x.git" "r") (ApiBranch.mk "u" "b"))
      "1" "T" "h"
      (GitState.mk [("main", 0), ("b", 5)] ["r"] "main" false false false 10)).2.next_commit
      = 11 :=
  claim_C8.2 "E"
    (RemoteBranch.mk (ApiRemote.mk "https://x.git" "r") (ApiBranch.mk "u" "b"))
    "1" "T" "h"
    (GitState.mk [("main", 0), ("b", 5)] ["r"] "main" false false false 10)
    (by decide) (by decide) (by decide)

/-- C1 counterexample: when the squash merge conflicts,
`merge_pull_request` returns before its cleanup step, so the ephemeral
branch `b` and remote `r` are still present afterwards — the cleanup is
not performed "regardless of merge outcome". -/
theorem claim_C1_counterexample :
    resIsErr (merge_pull_request true true "E"
      (RemoteBranch.mk (ApiRemote.mk "https://x.git" "r") (ApiBranch.mk "u" "b"))
      "1" "T" "h"
      (GitState.mk [("main", 0), ("b", 5)] ["r"] "main" false false false 10)).1
      = true ∧
    lookupB (merge_pull_request true true "E"
      (RemoteBranch.mk (ApiRemote.mk "https://x.git" "r") (ApiBranch.mk "u" "b"))
      "1" "T" "h"
      (GitState.mk [("main", 0), ("b", 5)] ["r"] "main" false false false 10)).2.branches
      "b" = some 5 ∧
    "r" ∈ (merge_pull_request true true "E"
      (RemoteBranch.mk (ApiRemote.mk "https://x.git" "r") (ApiBranch.mk "u" "b"))
      "1" "T" "h"
      (GitState.mk [("main", 0), ("b", 5)] ["r"] "main" false false false 10)).2.remotes := by
  decide

theorem not_mem_filter_bne (l : List String) (a : String) :
    a ∉ l.filter (fun r => !decide (r = a)) := by
  intro hmem
  rw [List.mem_filter] at hmem
  simp at hmem

/-- C1 (amended): the ephemeral remote and branch of a PR merge are
deleted when the squash merge succeeds and stages changes; when the
merge conflicts, `merge_pull_request` returns early and the ephemeral
remote and branch survive the call, and the orchestrator's loop performs
no cleanup for a failed item either, so they survive the run. -/
theorem claim_C1 :
    (∀ (errText : String) (info : RemoteBranch) (pr title url : String)
        (st : GitState),
      (lookupB st.branches info.branch.local_branch_name).isSome = true →
      info.branch.local_branch_name ≠ st.head →
      info.remote.local_remote_alias ∈ st.remotes →
      (merge_pull_request false true errText info pr title url st).1 = Except.ok () ∧
      lookupB (merge_pull_request false true errText info pr title url st).2.branches
        info.branch.local_branch_name = none ∧
      info.remote.local_remote_alias ∉
        (merge_pull_request false true errText info pr title url st).2.remotes) ∧
    (∀ (stages : Bool) (errText : String) (info : RemoteBranch)
        (pr title url : String) (st : GitState),
      merge_pull_request true stages errText info pr title url st =
        (Except.error ("Could not merge branch " ++ info.branch.local_branch_name
          ++ " into the current branch for pull request #" ++ pr ++ " " ++ title
          ++ " since the merge is non-trivial. Skipping this PR. Error message from git:\n"
          ++ ("Could not merge " ++ info.branch.upstream_branch_name ++ "\n"
            ++ (errText ++ " merging " ++ info.branch.local_branch_name))),
        { st with staged := false, dirty := false })) ∧
    (lookupB (process_pull_requests
      [PrRunItem.mk "2" (some (PrData.mk "url2" "feat2" "T2" "h2"))
        (FetchOracle.mk true 22 true 0) "u2" true true "E"]
      (GitState.mk [("main", 0)] [] "main" false false false 100)).1.branches
      "2/feat2" = some 22 ∧
    "u2-h2-2" ∈ (process_pull_requests
      [PrRunItem.mk "2" (some (PrData.mk "url2" "feat2" "T2" "h2"))
        (FetchOracle.mk true 22 true 0) "u2" true true "E"]
      (GitState.mk [("main", 0)] [] "main" false false false 100)).1.remotes) := by
  refine ⟨?_, ?_, by decide⟩
  · intro errText info pr title url st heph hne hrem
    obtain ⟨br, rem, hd, sg, dt, am, nc⟩ := st
    simp only [] at heph hne hrem
    simp [merge_pull_request, merge_into_main, merge_squash, commit_cmd,
      diff_cached_quiet, resIsErr, delete_remote_and_branch,
      branch_delete_force, remote_remove, lookupB_setB, lookupB_removeB_self,
      heph, hne, hrem, Ne.symm hne, not_mem_filter_bne]
  · intro stages errText info pr title url st
    rfl

/-- Witness for the amended C1: a clean merge at a concrete repository
removes the ephemeral branch `b` and remote `r`. -/
theorem claim_C1_witness :
    (merge_pull_request false true "E"
      (RemoteBranch.mk (ApiRemote.mk "https://x.git" "r") (ApiBranch.mk "u" "b"))
      "1" "T" "h"
      (GitState.mk [("main", 0), ("b", 5)] ["r"] "main" false false false 10)).1
      = Except.ok () ∧
    lookupB (merge_pull_request false true "E"
      (RemoteBranch.mk (ApiRemote.mk "https://x.git" "r") (ApiBranch.mk "u" "b"))
      "1" "T" "h"
      (GitState.mk [("main", 0), ("b", 5)] ["r"] "main" false false false 10)).2.branches
      "b" = none ∧
    "r" ∉ (merge_pull_request false true "E"
      (RemoteBranch.mk (ApiRemote.mk "https://x.git" "r") (ApiBranch.mk "u" "b"))
      "1" "T" "h"
      (GitState.mk [("main", 0), ("b", 5)] ["r"] "main" false false false 10)).2.remotes :=
  claim_C1.1 "E"
    (RemoteBranch.mk (ApiRemote.mk "https://x.git" "r") (ApiBranch.mk "u" "b"))
    "1" "T" "h"
    (GitState.mk [("main", 0), ("b", 5)] ["r"] "main" false false false 10)
    (by decide) (by decide) (by decide)

/-- C7 counterexample: a plain-branch fetch (`fetch_branch` in
`src/git.rs`) seeds its local branch name directly from the configured
branch, without the allocator: fetching branch `feature` of `o/r` while
a local ref `feature` already exists yields an ephemeral binding whose
`local_branch_name` is the pre-existing ref `feature`. -/
theorem claim_C7_counterexample :
    (fetch_branch (some "https://github.com/o/r.git") (FetchOracle.mk true 9 true 0)
      "u9" (ConfigRemote.mk "o" "r" "feature" none)
      (GitState.mk [("feature", 5), ("main", 0)] [] "main" false false false 10)).1.toOption
      = some ("https://github.com/o/r.git",
          RemoteBranch.mk (ApiRemote.mk "https://github.com/o/r.git" "u9-o/r")
            (ApiBranch.mk "feature" "feature")) ∧
    refExists
      (GitState.mk [("feature", 5), ("main", 0)] [] "main" false false false 10)
      "feature" = true := by
  decide

/-- C7 (amended): only the generated-name path of a PR fetch routes its
local branch name through the allocator of §4.1 — and then the name
never collides with an existing ref; a caller-supplied custom branch
name is used verbatim, and the plain-branch fetch of `src/git.rs` uses
the configured branch name verbatim, so those may reuse the name of a
pre-existing ref. -/
theorem claim_C7 :
    (∀ (r : PrData) (o : FetchOracle) (uuid pr : String)
        (ch : Option String) (st : GitState) (resp : PrData) (info : RemoteBranch),
      (fetch_pull_request (some r) o uuid pr none ch st).1 = Except.ok (resp, info) →
      info.branch.local_branch_name
        = availableBranchName st (pr ++ "/" ++ r.head_ref) ∧
      refExists st info.branch.local_branch_name = false) ∧
    (∀ (r : PrData) (o : FetchOracle) (uuid pr custom : String)
        (ch : Option String) (st : GitState) (resp : PrData) (info : RemoteBranch),
      (fetch_pull_request (some r) o uuid pr (some custom) ch st).1
        = Except.ok (resp, info) →
      info.branch.local_branch_name = custom) ∧
    (∀ (clone_url : String) (o : FetchOracle) (uuid : String)
        (remote : ConfigRemote) (st : GitState) (u : String) (info : RemoteBranch),
      (fetch_branch (some clone_url) o uuid remote st).1 = Except.ok (u, info) →
      info.branch.local_branch_name = remote.branch) := by
  refine ⟨?_, ?_, ?_⟩
  · intro r o uuid pr ch st resp info h
    simp only [fetch_pull_request] at h
    split at h
    · simp at h
    · simp only [Prod.mk.injEq, Except.ok.injEq] at h
      rw [← h.2]
      exact ⟨rfl, availableBranchName_not_exists st (pr ++ "/" ++ r.head_ref)⟩
  · intro r o uuid pr custom ch st resp info h
    simp only [fetch_pull_request] at h
    split at h
    · simp at h
    · simp only [Prod.mk.injEq, Except.ok.injEq] at h
      rw [← h.2]
  · intro clone_url o uuid remote st u info h
    simp only [fetch_branch] at h
    split at h
    · simp at h
    · simp only [Prod.mk.injEq, Except.ok.injEq] at h
      rw [← h.2]

/-- Witness for the amended C7: a PR fetch with no custom name at a
repository that already has `1/feat1` allocates `2-1/feat1`, which is
not an existing ref. -/
theorem claim_C7_witness :
    (RemoteBranch.mk (ApiRemote.mk "url1" "u1-h1-1")
      (ApiBranch.mk "feat1" "2-1/feat1")).branch.local_branch_name
      = availableBranchName
          (GitState.mk [("1/feat1", 4), ("main", 0)] [] "main" false false false 10)
          ("1" ++ "/" ++ (PrData.mk "url1" "feat1" "T1" "h1").head_ref) ∧
    refExists (GitState.mk [("1/feat1", 4), ("main", 0)] [] "main" false false false 10)
      (RemoteBranch.mk (ApiRemote.mk "url1" "u1-h1-1")
        (ApiBranch.mk "feat1" "2-1/feat1")).branch.local_branch_name = false :=
  claim_C7.1 (PrData.mk "url1" "feat1" "T1" "h1") (FetchOracle.mk true 11 true 0)
    "u1" "1" none
    (GitState.mk [("1/feat1", 4), ("main", 0)] [] "main" false false false 10)
    (PrData.mk "url1" "feat1" "T1" "h1")
    (RemoteBranch.mk (ApiRemote.mk "url1" "u1-h1-1")
      (ApiBranch.mk "feat1" "2-1/feat1"))
    rfl

end Patchy
